import Mathlib

/-!
A shallow embedding of `convert_pg_to_sqlite.py`: a one-shot textual
migration script that reads one schema file, applies a fixed ordered list of
string/regex substitutions to the buffer, and writes the result.

Text is modelled as `List Char`.  Python's `str.replace` and the script's
`re.sub` calls are all modelled by one generic left-to-right scanner
`scanSub` driven by a per-rule matcher.  Every regex in the script consists
of literal segments and character-class repetitions (`[^)]+`, `[^"]+`,
`[^}]*`, `\w+`, `\s*`) each followed by a character outside its class, so
greedy matching with backtracking is deterministic and equal to maximal
munch; each matcher below computes exactly the Python match (on ASCII input;
the script's input is ASCII source text).  Fuel, initialised to the length
of the scanned text, makes every function structurally recursive and
kernel-computable; every matcher used consumes at least one character, so
this fuel always suffices.
-/

/-- One substitution step: a matcher either returns the replacement text and
the remainder of the input after the matched portion, or `none`. -/
abbrev Matcher := List Char → Option (List Char × List Char)

/-- Left-to-right scan: at each position try the matcher; on a match emit the
replacement and continue after the matched text (Python `re.sub` /
`str.replace` semantics: leftmost, non-overlapping, replacement text is not
rescanned). -/
def scanSub (m : Matcher) : Nat → List Char → List Char
  | 0, s => s
  | _ + 1, [] => []
  | fuel + 1, c :: rest =>
    match m (c :: rest) with
    | some (out, rem) => out ++ scanSub m fuel rem
    | none => c :: scanSub m fuel rest

/-- Matcher for a literal pattern `pat` replaced by `repl`; used for
`str.replace` calls and for the script's `re.sub` calls whose pattern is a
fully escaped literal. -/
def litMatcher (pat repl : List Char) : Matcher := fun s =>
  if pat.isPrefixOf s then some (repl, s.drop pat.length) else none

/-- Python `s.replace(pat, repl)` for the non-empty patterns the script uses. -/
def replaceAll (pat repl s : List Char) : List Char :=
  scanSub (litMatcher pat repl) s.length s

/-- Consume a literal: `some` of the remainder when `lit` is a prefix of `s`. -/
def expects (lit s : List Char) : Option (List Char) :=
  if lit.isPrefixOf s then some (s.drop lit.length) else none

/-- Python regex `\w` (word character), on ASCII input. -/
def isWordChar (c : Char) : Bool := c.isAlphanum || c == '_'

/-- Python regex `\s` (whitespace), on ASCII input. -/
def isPySpace (c : Char) : Bool :=
  c == ' ' || c == '\t' || c == '\n' || c == '\r' || c == '\x0b' || c == '\x0c'

/-- Matcher for line 21's pattern `export const \w+Enum = pgEnum\([^)]+\);`.
Since `Enum`'s characters are word characters and the following space is
not, the backtracking search for `\w+Enum` succeeds exactly when the maximal
word-character run after `export const ` has length at least 5 and ends in
`Enum`; `[^)]+` then matches maximally up to the first `)`. -/
def enumDeclMatcher : Matcher := fun s =>
  match expects "export const ".data s with
  | none => none
  | some s1 =>
    let run := s1.takeWhile isWordChar
    if 5 ≤ run.length && "Enum".data.isSuffixOf run then
      match expects " = pgEnum(".data (s1.drop run.length) with
      | none => none
      | some s2 =>
        let args := s2.takeWhile (fun c => c != ')')
        if args.isEmpty then none
        else
          match expects ");".data (s2.drop args.length) with
          | none => none
          | some s3 => some ([], s3)
    else none

/-- Matcher for line 28's pattern `numeric\([^)]+\)`, replaced by `real`. -/
def numericMatcher : Matcher := fun s =>
  match expects "numeric(".data s with
  | none => none
  | some s1 =>
    let args := s1.takeWhile (fun c => c != ')')
    if args.isEmpty then none
    else
      match expects ")".data (s1.drop args.length) with
      | none => none
      | some s2 => some ("real".data, s2)

/-- Matcher for line 29's pattern `timestamp\(("[^"]+"),\s*\{[^}]*\}\)` with
replacement `integer(\1, { mode: "timestamp" })`. -/
def tsObjMatcher : Matcher := fun s =>
  match expects "timestamp(\"".data s with
  | none => none
  | some s1 =>
    let nm := s1.takeWhile (fun c => c != '"')
    if nm.isEmpty then none
    else
      match expects "\",".data (s1.drop nm.length) with
      | none => none
      | some s2 =>
        match expects "\x7b".data (s2.dropWhile isPySpace) with
        | none => none
        | some s4 =>
          let body := s4.takeWhile (fun c => c != '\x7d')
          match expects "\x7d)".data (s4.drop body.length) with
          | none => none
          | some s5 =>
            some ("integer(\"".data ++ nm ++ "\", \x7b mode: \"timestamp\" \x7d)".data, s5)

/-- The source-dialect import line of line 9 (the pattern is fully escaped,
hence a literal). -/
def importLinePg : List Char :=
  "import \x7b pgTable, text, varchar, integer, timestamp, pgEnum, numeric, boolean, jsonb \x7d from \"drizzle-orm/pg-core\";".data

/-- The destination-dialect import line of line 10. -/
def importLineSqlite : List Char :=
  "import \x7b sqliteTable, text, integer, real \x7d from \"drizzle-orm/sqlite-core\";".data

/-- Lines 8-12: rewrite the import declaration. -/
def replaceImports (s : List Char) : List Char := replaceAll importLinePg importLineSqlite s

/-- Line 15: remove the `sql` import. -/
def removeSqlImport (s : List Char) : List Char :=
  replaceAll "import \x7b sql \x7d from \"drizzle-orm\";".data [] s

/-- Line 18: the text prepended at the very top of the buffer. -/
def nanoidHeader : List Char :=
  "import \x7b nanoid \x7d from \"nanoid\";\nconst genId = () => nanoid();\n\n".data

/-- Line 18: prepend the nanoid import and the `genId` wrapper. -/
def addNanoidHeader (s : List Char) : List Char := nanoidHeader ++ s

/-- Line 21: remove enum declarations. -/
def removeEnumDecls (s : List Char) : List Char := scanSub enumDeclMatcher s.length s

/-- Line 24: replace table definitions. -/
def replacePgTable (s : List Char) : List Char :=
  replaceAll "pgTable".data "sqliteTable".data s

/-- Line 27. -/
def replaceVarchar (s : List Char) : List Char := replaceAll "varchar".data "text".data s

/-- Line 28. -/
def replaceNumeric (s : List Char) : List Char := scanSub numericMatcher s.length s

/-- Line 29: the specific two-argument timestamp rule. -/
def replaceTimestampObj (s : List Char) : List Char := scanSub tsObjMatcher s.length s

/-- Line 30: the general timestamp substitution. -/
def replaceTimestampCall (s : List Char) : List Char :=
  replaceAll "timestamp(".data "integer(".data s

/-- Line 31. -/
def replaceBooleanCall (s : List Char) : List Char :=
  replaceAll "boolean(".data "integer(".data s

/-- Line 32. -/
def replaceJsonbCall (s : List Char) : List Char := replaceAll "jsonb(".data "text(".data s

/-- Line 35: the pattern `\.array\(\)` is a fully escaped literal. -/
def removeArray (s : List Char) : List Char := replaceAll ".array()".data [] s

/-- Line 38: the pattern is a fully escaped literal. -/
def replaceUuidDefault (s : List Char) : List Char :=
  replaceAll ".default(sql`gen_random_uuid()`)".data ".$defaultFn(() => genId())".data s

/-- Lines 41-53: the fixed (enum-type-name, column-name) pairs. -/
def enum_types : List (List Char × List Char) :=
  [ ("statusEnum".data, "status".data),
    ("warehouseCategoryEnum".data, "category".data),
    ("warehouseStatusEnum".data, "status".data),
    ("transactionTypeEnum".data, "type".data),
    ("financialTypeEnum".data, "type".data),
    ("installationStatusEnum".data, "status".data),
    ("priorityEnum".data, "priority".data),
    ("documentTypeEnum".data, "type".data),
    ("messageTypeEnum".data, "message_type".data),
    ("dealDocumentTypeEnum".data, "document_type".data),
    ("customFieldTypeEnum".data, "field_type".data) ]

/-- The pattern `{enum_name}\("{col_name}"\)` of line 56 (a literal). -/
def enumCallPat (e col : List Char) : List Char := e ++ "(\"".data ++ col ++ "\")".data

/-- The replacement `text("{col_name}")` of line 56. -/
def textCallOf (col : List Char) : List Char := "text(\"".data ++ col ++ "\")".data

/-- Lines 55-56: replace enum column types with text. -/
def replaceEnumColumns (s : List Char) : List Char :=
  enum_types.foldl (fun acc p => replaceAll (enumCallPat p.1 p.2) (textCallOf p.2) acc) s

/-- Line 59. -/
def fixDefaultTrue (s : List Char) : List Char :=
  replaceAll ".default(true)".data ".default(1)".data s

/-- Line 60. -/
def fixDefaultFalse (s : List Char) : List Char :=
  replaceAll ".default(false)".data ".default(0)".data s

/-- Line 63. -/
def replaceDefaultNow (s : List Char) : List Char :=
  replaceAll ".defaultNow()".data ".$defaultFn(() => new Date())".data s

/-- Lines 66-72: the fixed boolean column names. -/
def boolean_columns : List (List Char) :=
  [ "can_create_deals".data, "can_edit_deals".data, "can_delete_deals".data,
    "is_signed".data, "is_active".data ]

/-- The pattern `integer\("{col}"\)` of line 75 (a literal). -/
def intCallOf (col : List Char) : List Char := "integer(\"".data ++ col ++ "\")".data

/-- The replacement `integer("{col}", { mode: "boolean" })` of line 75. -/
def intModeCallOf (col : List Char) : List Char :=
  "integer(\"".data ++ col ++ "\", \x7b mode: \"boolean\" \x7d)".data

/-- Lines 74-75: add mode "boolean" for the listed boolean columns. -/
def addBooleanMode (s : List Char) : List Char :=
  boolean_columns.foldl (fun acc col => replaceAll (intCallOf col) (intModeCallOf col) acc) s

/-- Lines 21-75: every substitution that runs after the header prepend, in
source order. -/
def pipelineBody (s : List Char) : List Char :=
  addBooleanMode (replaceDefaultNow (fixDefaultFalse (fixDefaultTrue (replaceEnumColumns
    (replaceUuidDefault (removeArray (replaceJsonbCall (replaceBooleanCall
    (replaceTimestampCall (replaceTimestampObj (replaceNumeric (replaceVarchar
    (replacePgTable (removeEnumDecls s))))))))))))))

/-- Lines 8-15: the two import rewrites that run before the header prepend. -/
def rewriteImports (s : List Char) : List Char := removeSqlImport (replaceImports s)

/-- The whole transformation pipeline of the script, as a pure function from
input text to output text (lines 8-75). -/
def convertPgToSqlite (s : List Char) : List Char :=
  pipelineBody (addNanoidHeader (rewriteImports s))

/-- All transformation work other than the header prepend, in pipeline order:
what the original input text itself becomes inside the output. -/
def bodyTransform (s : List Char) : List Char := pipelineBody (rewriteImports s)

/-- The first two lines of the prepended text, without the extra blank line. -/
def nanoidHeaderTwoLines : List Char :=
  "import \x7b nanoid \x7d from \"nanoid\";\nconst genId = () => nanoid();\n".data

/-- The input `timestamp("<name>", {<body>})` of the two-argument timestamp
rule, for a symbolic name and object-literal body. -/
def tsObjCall (nm body : List Char) : List Char :=
  "timestamp(\"".data ++ nm ++ "\", \x7b".data ++ body ++ "\x7d)".data

/-- The output `integer("<name>", { mode: "timestamp" })` of the two-argument
timestamp rule. -/
def tsIntModeCall (nm : List Char) : List Char :=
  "integer(\"".data ++ nm ++ "\", \x7b mode: \"timestamp\" \x7d)".data

/-- An enum declaration statement `export const <nm>Enum = pgEnum(<args>);`. -/
def enumDeclStmt (nm args : List Char) : List Char :=
  "export const ".data ++ nm ++ "Enum = pgEnum(".data ++ args ++ ");".data

/-- A call `boolean("<col>")`. -/
def boolCallOf (col : List Char) : List Char := "boolean(\"".data ++ col ++ "\")".data

/-- The two files the script touches: the fixed source path (`none` when the
file is missing or unreadable) and the fixed destination path. -/
structure FileSystem where
  src : Option (List Char)
  dst : Option (List Char)

/-- Lines 4-79 as an I/O skeleton: read the whole source file first (lines
4-5); a read fault aborts the run before any transformation or write, leaving
the filesystem unchanged (returned in the `error` case); otherwise transform
and write the destination (lines 78-79). -/
def runScript (fs : FileSystem) : Except FileSystem FileSystem :=
  match fs.src with
  | none => Except.error fs
  | some content => Except.ok { fs with dst := some (convertPgToSqlite content) }

/-- Whether `pat` occurs as a contiguous substring of `s`. -/
def occursIn (pat : List Char) : List Char → Bool
  | [] => pat.isEmpty
  | c :: rest => pat.isPrefixOf (c :: rest) || occursIn pat rest

/-! ### Basic bridges between boolean string tests and existential decompositions -/

theorem isPrefixOf_iff_ex {a b : List Char} : a.isPrefixOf b = true ↔ ∃ r, b = a ++ r := by
  rw [ List.isPrefixOf_iff_prefix]
  constructor
  · rintro ⟨r, rfl⟩; exact ⟨r, rfl⟩
  · rintro ⟨r, rfl⟩; exact ⟨r, rfl⟩

theorem isSuffixOf_iff_ex {a b : List Char} : a.isSuffixOf b = true ↔ ∃ p, b = p ++ a := by
  rw [List.isSuffixOf_iff_suffix]
  constructor
  · rintro ⟨p, rfl⟩; exact ⟨p, rfl⟩
  · rintro ⟨p, rfl⟩; exact ⟨p, rfl⟩

theorem occursIn_iff_ex : ∀ {s pat : List Char}, occursIn pat s = true ↔ ∃ u v, s = u ++ pat ++ v
  | [], pat => by
    simp only [occursIn, List.isEmpty_eq_true]
    constructor
    · rintro rfl; exact ⟨[], [], rfl⟩
    · rintro ⟨u, v, h⟩
      exact (List.append_eq_nil.mp (List.append_eq_nil.mp h.symm).1).2
  | c :: rest, pat => by
    simp only [occursIn, Bool.or_eq_true]
    rw [isPrefixOf_iff_ex]
    constructor
    · rintro (⟨r, hr⟩ | h)
      · exact ⟨[], r, by simpa using hr⟩
      · obtain ⟨u, v, hv⟩ := occursIn_iff_ex.mp h
        exact ⟨c :: u, v, by rw [hv]; rfl⟩
    · rintro ⟨u, v, huv⟩
      cases u with
      | nil => exact Or.inl ⟨v, by simpa using huv⟩
      | cons c' u' =>
        right
        apply occursIn_iff_ex.mpr
        refine ⟨u', v, ?_⟩
        have : c :: rest = c' :: (u' ++ pat ++ v) := huv
        exact (List.cons.injEq _ _ _ _ ▸ this).2

/-! ### Prefixes and occurrences across appends -/

theorem pre_append_short {q a b : List Char} (h : q.isPrefixOf (a ++ b) = true)
    (hle : q.length ≤ a.length) : q.isPrefixOf a = true := by
  obtain ⟨r, hr⟩ := isPrefixOf_iff_ex.mp h
  have h1 : (a ++ b).take q.length = q := by rw [hr]; exact List.take_left' rfl
  have h2 : (a ++ b).take q.length = a.take q.length := by
    rw [List.take_append_eq_append_take, Nat.sub_eq_zero_of_le hle]
    simp
  apply isPrefixOf_iff_ex.mpr
  refine ⟨a.drop q.length, ?_⟩
  calc a = a.take q.length ++ a.drop q.length := (List.take_append_drop _ _).symm
    _ = q ++ a.drop q.length := by rw [← h2, h1]

theorem pre_append_long {q a b : List Char} (h : q.isPrefixOf (a ++ b) = true)
    (hge : a.length ≤ q.length) :
    a.isPrefixOf q = true ∧ (q.drop a.length).isPrefixOf b = true := by
  obtain ⟨r, hr⟩ := isPrefixOf_iff_ex.mp h
  have h1 : q = a ++ b.take (q.length - a.length) := by
    calc q = (a ++ b).take q.length := by rw [hr]; exact (List.take_left' rfl).symm
      _ = a.take q.length ++ b.take (q.length - a.length) := List.take_append_eq_append_take
      _ = a ++ b.take (q.length - a.length) := by rw [List.take_of_length_le hge]
  refine ⟨isPrefixOf_iff_ex.mpr ⟨_, h1⟩, ?_⟩
  have h2 : q.drop a.length = b.take (q.length - a.length) := by
    conv_lhs => rw [h1]
    exact List.drop_left _ _
  rw [h2]
  exact isPrefixOf_iff_ex.mpr ⟨b.drop (q.length - a.length), (List.take_append_drop _ _).symm⟩

theorem occursIn_append_split {pat a b : List Char} (h : occursIn pat (a ++ b) = true) :
    occursIn pat a = true ∨ occursIn pat b = true ∨
      ∃ k, 0 < k ∧ k < pat.length ∧
        (pat.take k).isSuffixOf a = true ∧ (pat.drop k).isPrefixOf b = true := by
  obtain ⟨u, v, huv⟩ := occursIn_iff_ex.mp h
  by_cases h1 : u.length + pat.length ≤ a.length
  · left
    apply occursIn_iff_ex.mpr
    refine ⟨u, v.take (a.length - (u ++ pat).length), ?_⟩
    calc a = (a ++ b).take a.length := (List.take_left' rfl).symm
      _ = ((u ++ pat) ++ v).take a.length := by rw [huv]
      _ = (u ++ pat).take a.length ++ v.take (a.length - (u ++ pat).length) :=
          List.take_append_eq_append_take
      _ = (u ++ pat) ++ v.take (a.length - (u ++ pat).length) := by
          rw [List.take_of_length_le (by simp only [List.length_append]; omega)]
  · by_cases h2 : a.length ≤ u.length
    · right; left
      apply occursIn_iff_ex.mpr
      refine ⟨u.drop a.length, v, ?_⟩
      calc b = (a ++ b).drop a.length := (List.drop_left' rfl).symm
        _ = ((u ++ pat) ++ v).drop a.length := by rw [huv]
        _ = (u ++ pat).drop a.length ++ v.drop (a.length - (u ++ pat).length) :=
            List.drop_append_eq_append_drop
        _ = (u ++ pat).drop a.length ++ v := by
            rw [show a.length - (u ++ pat).length = 0 by
              simp only [List.length_append]; omega, List.drop_zero]
        _ = (u.drop a.length ++ pat.drop (a.length - u.length)) ++ v := by
            rw [List.drop_append_eq_append_drop]
        _ = (u.drop a.length ++ pat) ++ v := by
            rw [Nat.sub_eq_zero_of_le h2, List.drop_zero]
    · right; right
      refine ⟨a.length - u.length, by omega, by omega, ?_, ?_⟩
      · apply isSuffixOf_iff_ex.mpr
        refine ⟨u, ?_⟩
        calc a = (a ++ b).take a.length := (List.take_left' rfl).symm
          _ = ((u ++ pat) ++ v).take a.length := by rw [huv]
          _ = (u ++ pat).take a.length ++ v.take (a.length - (u ++ pat).length) :=
              List.take_append_eq_append_take
          _ = (u ++ pat).take a.length := by
              rw [show a.length - (u ++ pat).length = 0 by
                simp only [List.length_append]; omega, List.take_zero, List.append_nil]
          _ = u.take a.length ++ pat.take (a.length - u.length) :=
              List.take_append_eq_append_take
          _ = u ++ pat.take (a.length - u.length) := by
              rw [List.take_of_length_le (by omega)]
      · apply isPrefixOf_iff_ex.mpr
        refine ⟨v, ?_⟩
        calc b = (a ++ b).drop a.length := (List.drop_left' rfl).symm
          _ = ((u ++ pat) ++ v).drop a.length := by rw [huv]
          _ = (u ++ pat).drop a.length ++ v.drop (a.length - (u ++ pat).length) :=
              List.drop_append_eq_append_drop
          _ = (u ++ pat).drop a.length ++ v := by
              rw [show a.length - (u ++ pat).length = 0 by
                simp only [List.length_append]; omega, List.drop_zero]
          _ = (u.drop a.length ++ pat.drop (a.length - u.length)) ++ v := by
              rw [List.drop_append_eq_append_drop]
          _ = pat.drop (a.length - u.length) ++ v := by
              rw [List.drop_eq_nil_of_le (by omega), List.nil_append]

theorem occursIn_append_eq_false {pat a b : List Char}
    (ha : occursIn pat a = false) (hb : occursIn pat b = false)
    (hspan : ∀ k, k < pat.length → 0 < k →
      (pat.take k).isSuffixOf a = false ∨ (pat.drop k).isPrefixOf b = false) :
    occursIn pat (a ++ b) = false := by
  cases hx : occursIn pat (a ++ b) with
  | false => rfl
  | true =>
    exfalso
    rcases occursIn_append_split hx with h | h | ⟨k, hk0, hkl, hsuf, hpre⟩
    · rw [ha] at h; cases h
    · rw [hb] at h; cases h
    · rcases hspan k hkl hk0 with hc | hc
      · rw [hc] at hsuf; cases hsuf
      · rw [hc] at hpre; cases hpre

theorem occursIn_append_eq_false_left {pat a b : List Char}
    (ha : occursIn pat a = false) (hb : occursIn pat b = false)
    (hspan : ∀ k, k < pat.length → 0 < k → (pat.take k).isSuffixOf a = false) :
    occursIn pat (a ++ b) = false :=
  occursIn_append_eq_false ha hb (fun k h1 h2 => Or.inl (hspan k h1 h2))

theorem occursIn_eq_false_of_not_mem {x : Char} {pat : List Char} (hx : x ∈ pat) :
    ∀ {s : List Char}, x ∉ s → occursIn pat s = false
  | [], _ => by
    have : pat ≠ [] := List.ne_nil_of_mem hx
    simpa [occursIn] using this
  | c :: rest, hs => by
    have h1 : pat.isPrefixOf (c :: rest) = false := by
      cases hp : pat.isPrefixOf (c :: rest) with
      | false => rfl
      | true =>
        exfalso
        obtain ⟨r, hr⟩ := isPrefixOf_iff_ex.mp hp
        exact hs (hr ▸ List.mem_append_left _ hx)
    have h2 : occursIn pat rest = false :=
      occursIn_eq_false_of_not_mem hx (fun hm => hs (List.mem_cons_of_mem _ hm))
    simp [occursIn, h1, h2]

/-! ### Basic facts about the scanner -/

theorem scanSub_nil (m : Matcher) : ∀ f, scanSub m f [] = []
  | 0 => rfl
  | _ + 1 => rfl

theorem scanSub_lit_eq_self (pat repl : List Char) :
    ∀ (f : Nat) (s : List Char), occursIn pat s = false →
      scanSub (litMatcher pat repl) f s = s
  | 0, _, _ => rfl
  | _ + 1, [], _ => rfl
  | f + 1, c :: rest, h => by
    have h' : (pat.isPrefixOf (c :: rest) || occursIn pat rest) = false := h
    rw [Bool.or_eq_false_iff] at h'
    show (match litMatcher pat repl (c :: rest) with
      | some (out, rem) => out ++ scanSub (litMatcher pat repl) f rem
      | none => c :: scanSub (litMatcher pat repl) f rest) = c :: rest
    rw [show litMatcher pat repl (c :: rest) = none by simp [litMatcher, h'.1]]
    rw [scanSub_lit_eq_self pat repl f rest h'.2]

theorem replaceAll_eq_self {pat repl s : List Char} (h : occursIn pat s = false) :
    replaceAll pat repl s = s :=
  scanSub_lit_eq_self pat repl s.length s h

/-! ### After `replaceAll pat repl`, no occurrence of `pat` remains
(for pattern/replacement pairs satisfying the side conditions below) -/

theorem scanLit_pre_stable (pat repl : List Char)
    (h3 : ∀ i, i < pat.length → 0 < i → (pat.drop i).isPrefixOf repl = false)
    (h4 : occursIn repl pat = false) :
    ∀ (f : Nat) (s : List Char) (i : Nat), i < pat.length → 0 < i →
      (pat.drop i).isPrefixOf (scanSub (litMatcher pat repl) f s) = true →
      (pat.drop i).isPrefixOf s = true
  | 0, _, _, _, _, hp => hp
  | _ + 1, [], _, _, _, hp => by rw [scanSub_nil] at hp; exact hp
  | f + 1, c :: rest, i, hi, hi0, hp => by
    have hq : pat.drop i = pat[i] :: pat.drop (i + 1) := List.drop_eq_getElem_cons hi
    by_cases hm : pat.isPrefixOf (c :: rest) = true
    · exfalso
      have hout : scanSub (litMatcher pat repl) (f + 1) (c :: rest)
          = repl ++ scanSub (litMatcher pat repl) f ((c :: rest).drop pat.length) := by
        show (match litMatcher pat repl (c :: rest) with
          | some (out, rem) => out ++ scanSub (litMatcher pat repl) f rem
          | none => c :: scanSub (litMatcher pat repl) f rest) = _
        rw [show litMatcher pat repl (c :: rest)
            = some (repl, (c :: rest).drop pat.length) by simp [litMatcher, hm]]
      rw [hout] at hp
      by_cases hlen : (pat.drop i).length ≤ repl.length
      · have hpre := pre_append_short hp hlen
        rw [h3 i hi hi0] at hpre
        cases hpre
      · have hlong := (pre_append_long hp (by omega)).1
        obtain ⟨r, hr⟩ := isPrefixOf_iff_ex.mp hlong
        have hocc : occursIn repl pat = true := by
          apply occursIn_iff_ex.mpr
          refine ⟨pat.take i, r, ?_⟩
          calc pat = pat.take i ++ pat.drop i := (List.take_append_drop _ _).symm
            _ = pat.take i ++ (repl ++ r) := by rw [hr]
            _ = (pat.take i ++ repl) ++ r := by rw [List.append_assoc]
        rw [h4] at hocc
        cases hocc
    · have hm' : pat.isPrefixOf (c :: rest) = false := by
        cases h : pat.isPrefixOf (c :: rest) with
        | false => rfl
        | true => exact absurd h hm
      have hout : scanSub (litMatcher pat repl) (f + 1) (c :: rest)
          = c :: scanSub (litMatcher pat repl) f rest := by
        show (match litMatcher pat repl (c :: rest) with
          | some (out, rem) => out ++ scanSub (litMatcher pat repl) f rem
          | none => c :: scanSub (litMatcher pat repl) f rest) = _
        rw [show litMatcher pat repl (c :: rest) = none by simp [litMatcher, hm']]
      rw [hout, hq] at hp
      simp only [List.isPrefixOf, Bool.and_eq_true, beq_iff_eq] at hp
      obtain ⟨hc, htail⟩ := hp
      rw [hq]
      simp only [List.isPrefixOf, Bool.and_eq_true, beq_iff_eq]
      refine ⟨hc, ?_⟩
      by_cases hi1 : i + 1 < pat.length
      · exact scanLit_pre_stable pat repl h3 h4 f rest (i + 1) hi1 (by omega) htail
      · have hnil : pat.drop (i + 1) = [] := List.drop_eq_nil_of_le (by omega)
        rw [hnil]
        cases rest <;> rfl

theorem scanLit_no_occur (pat repl : List Char) (hne : pat ≠ [])
    (h1 : occursIn pat repl = false)
    (h2 : ∀ k, k < pat.length → 0 < k → (pat.take k).isSuffixOf repl = false)
    (h3 : ∀ i, i < pat.length → 0 < i → (pat.drop i).isPrefixOf repl = false)
    (h4 : occursIn repl pat = false) :
    ∀ (f : Nat) (s : List Char), s.length ≤ f →
      occursIn pat (scanSub (litMatcher pat repl) f s) = false
  | 0, s, hf => by
    have hs : s = [] := by
      cases s with
      | nil => rfl
      | cons c rest => simp at hf
    subst hs
    show pat.isEmpty = false
    exact List.isEmpty_eq_false.mpr hne
  | _ + 1, [], _ => by
    rw [scanSub_nil]
    show pat.isEmpty = false
    exact List.isEmpty_eq_false.mpr hne
  | f + 1, c :: rest, hf => by
    have hplen : 0 < pat.length := List.length_pos.mpr hne
    by_cases hm : pat.isPrefixOf (c :: rest) = true
    · have hout : scanSub (litMatcher pat repl) (f + 1) (c :: rest)
          = repl ++ scanSub (litMatcher pat repl) f ((c :: rest).drop pat.length) := by
        show (match litMatcher pat repl (c :: rest) with
          | some (out, rem) => out ++ scanSub (litMatcher pat repl) f rem
          | none => c :: scanSub (litMatcher pat repl) f rest) = _
        rw [show litMatcher pat repl (c :: rest)
            = some (repl, (c :: rest).drop pat.length) by simp [litMatcher, hm]]
      rw [hout]
      have hrec : occursIn pat
          (scanSub (litMatcher pat repl) f ((c :: rest).drop pat.length)) = false := by
        apply scanLit_no_occur pat repl hne h1 h2 h3 h4 f
        rw [List.length_drop]
        simp only [List.length_cons] at hf ⊢
        omega
      exact occursIn_append_eq_false_left h1 hrec h2
    · have hm' : pat.isPrefixOf (c :: rest) = false := by
        cases h : pat.isPrefixOf (c :: rest) with
        | false => rfl
        | true => exact absurd h hm
      have hout : scanSub (litMatcher pat repl) (f + 1) (c :: rest)
          = c :: scanSub (litMatcher pat repl) f rest := by
        show (match litMatcher pat repl (c :: rest) with
          | some (out, rem) => out ++ scanSub (litMatcher pat repl) f rem
          | none => c :: scanSub (litMatcher pat repl) f rest) = _
        rw [show litMatcher pat repl (c :: rest) = none by simp [litMatcher, hm']]
      rw [hout]
      have hO : occursIn pat (scanSub (litMatcher pat repl) f rest) = false :=
        scanLit_no_occur pat repl hne h1 h2 h3 h4 f rest
          (by simp only [List.length_cons] at hf; omega)
      show (pat.isPrefixOf (c :: scanSub (litMatcher pat repl) f rest)
          || occursIn pat (scanSub (litMatcher pat repl) f rest)) = false
      rw [hO, Bool.or_false]
      cases hp : pat.isPrefixOf (c :: scanSub (litMatcher pat repl) f rest) with
      | false => rfl
      | true =>
        exfalso
        set O := scanSub (litMatcher pat repl) f rest with hO
        have hq : pat = pat[0] :: pat.drop 1 := by
          conv_lhs => rw [← List.drop_zero pat]
          exact List.drop_eq_getElem_cons hplen
        rw [hq] at hp hm'
        simp only [List.isPrefixOf, Bool.and_eq_true, beq_iff_eq] at hp
        obtain ⟨hc, htail⟩ := hp
        by_cases h1lt : 1 < pat.length
        · rw [hO] at htail
          have hrest := scanLit_pre_stable pat repl h3 h4 f rest 1 h1lt (by omega) htail
          have hx : (pat[0] :: pat.drop 1).isPrefixOf (c :: rest) = true := by
            simp only [List.isPrefixOf, Bool.and_eq_true, beq_iff_eq]
            exact ⟨hc, hrest⟩
          rw [hx] at hm'
          cases hm'
        · have hnil : pat.drop 1 = [] := List.drop_eq_nil_of_le (by omega)
          have hx : (pat[0] :: pat.drop 1).isPrefixOf (c :: rest) = true := by
            rw [hnil]
            simp [List.isPrefixOf, hc]
          rw [hx] at hm'
          cases hm'

theorem replaceAll_no_occur (pat repl : List Char) (hne : pat ≠ [])
    (h1 : occursIn pat repl = false)
    (h2 : ∀ k, k < pat.length → 0 < k → (pat.take k).isSuffixOf repl = false)
    (h3 : ∀ i, i < pat.length → 0 < i → (pat.drop i).isPrefixOf repl = false)
    (h4 : occursIn repl pat = false) (s : List Char) :
    occursIn pat (replaceAll pat repl s) = false :=
  scanLit_no_occur pat repl hne h1 h2 h3 h4 s.length s le_rfl

/-! ### The prepended header is left untouched by every later rule:
each rule distributes over `nanoidHeader ++ ·` -/

theorem scanSub_append (m : Matcher) (b : List Char) :
    ∀ (a : List Char) (f : Nat),
      (∀ a', a' ≠ [] → (∃ p, a = p ++ a') → m (a' ++ b) = none) →
      scanSub m (a.length + f) (a ++ b) = a ++ scanSub m f b
  | [], f, _ => by simp
  | c :: a', f, h => by
    have hm : m ((c :: a') ++ b) = none := h (c :: a') (by simp) ⟨[], rfl⟩
    have hfu : (c :: a').length + f = (a'.length + f) + 1 := by
      simp only [List.length_cons]
      omega
    rw [hfu]
    show (match m (c :: (a' ++ b)) with
      | some (out, rem) => out ++ scanSub m (a'.length + f) rem
      | none => c :: scanSub m (a'.length + f) (a' ++ b)) = (c :: a') ++ scanSub m f b
    rw [show m (c :: (a' ++ b)) = none from hm]
    rw [scanSub_append m b a' f
      (fun x hne hex => h x hne (by obtain ⟨p, hp⟩ := hex; exact ⟨c :: p, by rw [hp]; rfl⟩))]
    rfl

theorem suffix_of_header_has_newline :
    ∀ a' : List Char, (∃ p, nanoidHeader = p ++ a') → a' ≠ [] → '\n' ∈ a' := by
  intro a' hex hne
  have hmem : a' ∈ nanoidHeader.tails := (List.mem_tails _ _).mpr ⟨hex.choose, hex.choose_spec.symm⟩
  have hall : ∀ x ∈ nanoidHeader.tails, x = [] ∨ '\n' ∈ x := by decide
  rcases hall a' hmem with h | h
  · exact absurd h hne
  · exact h

theorem matcher_none_on_header_suffix (M : Matcher) (L : List Char)
    (hM : ∀ s, L.isPrefixOf s = false → M s = none)
    (hnl : '\n' ∉ L) (hocc : occursIn L nanoidHeader = false) :
    ∀ a' b, a' ≠ [] → (∃ p, nanoidHeader = p ++ a') → M (a' ++ b) = none := by
  intro a' b hne hsuf
  apply hM
  cases hp : L.isPrefixOf (a' ++ b) with
  | false => rfl
  | true =>
    exfalso
    by_cases hlen : L.length ≤ a'.length
    · have h1 := pre_append_short hp hlen
      obtain ⟨r, hr⟩ := isPrefixOf_iff_ex.mp h1
      obtain ⟨p, hp2⟩ := hsuf
      have hocc' : occursIn L nanoidHeader = true := by
        apply occursIn_iff_ex.mpr
        exact ⟨p, r, by rw [hp2, hr, List.append_assoc]⟩
      rw [hocc] at hocc'
      cases hocc'
    · have h2 := (pre_append_long hp (by omega)).1
      obtain ⟨r, hr⟩ := isPrefixOf_iff_ex.mp h2
      have hmm : '\n' ∈ L := by
        rw [hr]
        exact List.mem_append_left _ (suffix_of_header_has_newline a' hsuf hne)
      exact hnl hmm

theorem litMatcher_none_of_not_pre (pat repl : List Char) :
    ∀ s, pat.isPrefixOf s = false → litMatcher pat repl s = none := by
  intro s h
  simp [litMatcher, h]

theorem enumDeclMatcher_none {s : List Char}
    (h : ("export const ".data).isPrefixOf s = false) : enumDeclMatcher s = none := by
  simp [enumDeclMatcher, expects, h]

theorem numericMatcher_none {s : List Char}
    (h : ("numeric(".data).isPrefixOf s = false) : numericMatcher s = none := by
  simp [numericMatcher, expects, h]

theorem tsObjMatcher_none {s : List Char}
    (h : ("timestamp(\"".data).isPrefixOf s = false) : tsObjMatcher s = none := by
  simp [tsObjMatcher, expects, h]

theorem stage_header_append (M : Matcher)
    (hnone : ∀ a' b, a' ≠ [] → (∃ p, nanoidHeader = p ++ a') → M (a' ++ b) = none)
    (x : List Char) :
    scanSub M (nanoidHeader ++ x).length (nanoidHeader ++ x)
      = nanoidHeader ++ scanSub M x.length x := by
  rw [List.length_append]
  exact scanSub_append M x nanoidHeader x.length (fun a' h1 h2 => hnone a' x h1 h2)

theorem replaceAll_header (pat repl : List Char) (hnl : '\n' ∉ pat)
    (hocc : occursIn pat nanoidHeader = false) (x : List Char) :
    replaceAll pat repl (nanoidHeader ++ x) = nanoidHeader ++ replaceAll pat repl x :=
  stage_header_append _
    (matcher_none_on_header_suffix _ pat (litMatcher_none_of_not_pre pat repl) hnl hocc) x

theorem foldl_replaceAll_header {α : Type} (patf replf : α → List Char) :
    ∀ (l : List α),
      (∀ a ∈ l, '\n' ∉ patf a ∧ occursIn (patf a) nanoidHeader = false) →
      ∀ x, l.foldl (fun acc a => replaceAll (patf a) (replf a) acc) (nanoidHeader ++ x)
          = nanoidHeader ++ l.foldl (fun acc a => replaceAll (patf a) (replf a) acc) x
  | [], _, x => rfl
  | a :: l, hp, x => by
    simp only [List.foldl_cons]
    rw [replaceAll_header _ _ (hp a (by simp)).1 (hp a (by simp)).2]
    exact foldl_replaceAll_header patf replf l (fun a ha => hp a (by simp [ha])) _

theorem replaceImports_header (x : List Char) :
    replaceImports (nanoidHeader ++ x) = nanoidHeader ++ replaceImports x :=
  replaceAll_header _ _ (by decide) (by decide) x

theorem removeSqlImport_header (x : List Char) :
    removeSqlImport (nanoidHeader ++ x) = nanoidHeader ++ removeSqlImport x :=
  replaceAll_header _ _ (by decide) (by decide) x

theorem removeEnumDecls_header (x : List Char) :
    removeEnumDecls (nanoidHeader ++ x) = nanoidHeader ++ removeEnumDecls x :=
  stage_header_append _
    (matcher_none_on_header_suffix _ ("export const ".data)
      (fun _ h => enumDeclMatcher_none h) (by decide) (by decide)) x

theorem replacePgTable_header (x : List Char) :
    replacePgTable (nanoidHeader ++ x) = nanoidHeader ++ replacePgTable x :=
  replaceAll_header _ _ (by decide) (by decide) x

theorem replaceVarchar_header (x : List Char) :
    replaceVarchar (nanoidHeader ++ x) = nanoidHeader ++ replaceVarchar x :=
  replaceAll_header _ _ (by decide) (by decide) x

theorem replaceNumeric_header (x : List Char) :
    replaceNumeric (nanoidHeader ++ x) = nanoidHeader ++ replaceNumeric x :=
  stage_header_append _
    (matcher_none_on_header_suffix _ ("numeric(".data)
      (fun _ h => numericMatcher_none h) (by decide) (by decide)) x

theorem replaceTimestampObj_header (x : List Char) :
    replaceTimestampObj (nanoidHeader ++ x) = nanoidHeader ++ replaceTimestampObj x :=
  stage_header_append _
    (matcher_none_on_header_suffix _ ("timestamp(\"".data)
      (fun _ h => tsObjMatcher_none h) (by decide) (by decide)) x

theorem replaceTimestampCall_header (x : List Char) :
    replaceTimestampCall (nanoidHeader ++ x) = nanoidHeader ++ replaceTimestampCall x :=
  replaceAll_header _ _ (by decide) (by decide) x

theorem replaceBooleanCall_header (x : List Char) :
    replaceBooleanCall (nanoidHeader ++ x) = nanoidHeader ++ replaceBooleanCall x :=
  replaceAll_header _ _ (by decide) (by decide) x

theorem replaceJsonbCall_header (x : List Char) :
    replaceJsonbCall (nanoidHeader ++ x) = nanoidHeader ++ replaceJsonbCall x :=
  replaceAll_header _ _ (by decide) (by decide) x

theorem removeArray_header (x : List Char) :
    removeArray (nanoidHeader ++ x) = nanoidHeader ++ removeArray x :=
  replaceAll_header _ _ (by decide) (by decide) x

theorem replaceUuidDefault_header (x : List Char) :
    replaceUuidDefault (nanoidHeader ++ x) = nanoidHeader ++ replaceUuidDefault x :=
  replaceAll_header _ _ (by decide) (by decide) x

set_option maxHeartbeats 800000 in
theorem replaceEnumColumns_header (x : List Char) :
    replaceEnumColumns (nanoidHeader ++ x) = nanoidHeader ++ replaceEnumColumns x := by
  have hp : ∀ p ∈ enum_types, '\n' ∉ enumCallPat p.1 p.2 ∧
      occursIn (enumCallPat p.1 p.2) nanoidHeader = false := by decide
  unfold replaceEnumColumns
  exact foldl_replaceAll_header _ _ enum_types hp x

theorem fixDefaultTrue_header (x : List Char) :
    fixDefaultTrue (nanoidHeader ++ x) = nanoidHeader ++ fixDefaultTrue x :=
  replaceAll_header _ _ (by decide) (by decide) x

theorem fixDefaultFalse_header (x : List Char) :
    fixDefaultFalse (nanoidHeader ++ x) = nanoidHeader ++ fixDefaultFalse x :=
  replaceAll_header _ _ (by decide) (by decide) x

theorem replaceDefaultNow_header (x : List Char) :
    replaceDefaultNow (nanoidHeader ++ x) = nanoidHeader ++ replaceDefaultNow x :=
  replaceAll_header _ _ (by decide) (by decide) x

set_option maxHeartbeats 800000 in
theorem addBooleanMode_header (x : List Char) :
    addBooleanMode (nanoidHeader ++ x) = nanoidHeader ++ addBooleanMode x := by
  have hp : ∀ c ∈ boolean_columns, '\n' ∉ intCallOf c ∧
      occursIn (intCallOf c) nanoidHeader = false := by decide
  unfold addBooleanMode
  exact foldl_replaceAll_header _ _ boolean_columns hp x

theorem pipelineBody_header (x : List Char) :
    pipelineBody (nanoidHeader ++ x) = nanoidHeader ++ pipelineBody x := by
  unfold pipelineBody
  rw [removeEnumDecls_header, replacePgTable_header, replaceVarchar_header,
    replaceNumeric_header, replaceTimestampObj_header, replaceTimestampCall_header,
    replaceBooleanCall_header, replaceJsonbCall_header, removeArray_header,
    replaceUuidDefault_header, replaceEnumColumns_header, fixDefaultTrue_header,
    fixDefaultFalse_header, replaceDefaultNow_header, addBooleanMode_header]

theorem convert_split (t : List Char) :
    convertPgToSqlite t = nanoidHeader ++ bodyTransform t :=
  pipelineBody_header (rewriteImports t)

theorem bodyTransform_header (x : List Char) :
    bodyTransform (nanoidHeader ++ x) = nanoidHeader ++ bodyTransform x := by
  unfold bodyTransform rewriteImports
  rw [replaceImports_header, removeSqlImport_header, pipelineBody_header]

/-! ### Helpers for evaluating the regex matchers on symbolic inputs -/

theorem takeWhile_append_all {p : Char → Bool} :
    ∀ {l1 : List Char} (l2 : List Char), (∀ c ∈ l1, p c = true) →
      (l1 ++ l2).takeWhile p = l1 ++ l2.takeWhile p
  | [], _, _ => rfl
  | c :: l1, l2, h => by
    have hc : p c = true := h c (by simp)
    rw [List.cons_append, List.takeWhile_cons_of_pos hc, List.cons_append,
      takeWhile_append_all l2 (fun d hd => h d (by simp [hd]))]

theorem dropWhile_append_all {p : Char → Bool} :
    ∀ {l1 : List Char} (l2 : List Char), (∀ c ∈ l1, p c = true) →
      (l1 ++ l2).dropWhile p = l2.dropWhile p
  | [], _, _ => rfl
  | c :: l1, l2, h => by
    have hc : p c = true := h c (by simp)
    rw [List.cons_append, List.dropWhile_cons_of_pos hc,
      dropWhile_append_all l2 (fun d hd => h d (by simp [hd]))]

theorem takeWhile_lit_stop {p : Char → Bool} {l1 : List Char} (l2 : List Char)
    (h : l1.takeWhile p = []) (hne : l1 ≠ []) : (l1 ++ l2).takeWhile p = [] := by
  cases l1 with
  | nil => exact absurd rfl hne
  | cons c l =>
    have hc : p c = false := by
      cases hp : p c with
      | false => rfl
      | true => rw [List.takeWhile_cons_of_pos hp] at h; cases h
    rw [List.cons_append, List.takeWhile_cons_of_neg (by simp [hc])]

theorem dropWhile_lit_keep {p : Char → Bool} {l1 : List Char} (l2 : List Char)
    (h : l1.dropWhile p = l1) (hne : l1 ≠ []) : (l1 ++ l2).dropWhile p = l1 ++ l2 := by
  cases l1 with
  | nil => exact absurd rfl hne
  | cons c l =>
    have hc : p c = false := by
      cases hp : p c with
      | false => rfl
      | true =>
        exfalso
        rw [List.dropWhile_cons_of_pos hp] at h
        have hlen := congrArg List.length h
        have hle : (l.dropWhile p).length ≤ l.length := (List.dropWhile_suffix p).length_le
        simp only [List.length_cons] at hlen
        omega
    rw [List.cons_append, List.dropWhile_cons_of_neg (by simp [hc])]

theorem expects_append (lit r : List Char) : expects lit (lit ++ r) = some r := by
  have h : lit.isPrefixOf (lit ++ r) = true := isPrefixOf_iff_ex.mpr ⟨r, rfl⟩
  simp [expects, h, List.drop_left]

theorem scanSub_full (M : Matcher) {s out : List Char}
    (hm : M s = some (out, [])) (hne : s ≠ []) : scanSub M s.length s = out := by
  cases s with
  | nil => exact absurd rfl hne
  | cons c rest =>
    show (match M (c :: rest) with
      | some (o, rem) => o ++ scanSub M rest.length rem
      | none => c :: scanSub M rest.length rest) = out
    rw [hm]
    show out ++ scanSub M rest.length [] = out
    rw [scanSub_nil, List.append_nil]

theorem tsObjMatcher_eval (nm body : List Char) (h1 : nm ≠ []) (h2 : '"' ∉ nm)
    (h3 : '\x7d' ∉ body) :
    tsObjMatcher (tsObjCall nm body) = some (tsIntModeCall nm, []) := by
  have hq : ∀ c ∈ nm, ((fun c => c != '"') c = true) := by
    intro c hc
    simp only [bne_iff_ne, ne_eq]
    intro hcc
    exact h2 (hcc ▸ hc)
  have hb : ∀ c ∈ body, ((fun c => c != '\x7d') c = true) := by
    intro c hc
    simp only [bne_iff_ne, ne_eq]
    intro hcc
    exact h3 (hcc ▸ hc)
  have hin : tsObjCall nm body
      = "timestamp(\"".data ++ (nm ++ ("\",".data ++ (" ".data ++ ("\x7b".data
          ++ (body ++ "\x7d)".data))))) := by
    simp [tsObjCall]
  have e1 : expects "timestamp(\"".data (tsObjCall nm body)
      = some (nm ++ ("\",".data ++ (" ".data ++ ("\x7b".data ++ (body ++ "\x7d)".data))))) := by
    rw [hin]; exact expects_append _ _
  have e2 : (nm ++ ("\",".data ++ (" ".data ++ ("\x7b".data
        ++ (body ++ "\x7d)".data))))).takeWhile (fun c => c != '"') = nm := by
    rw [takeWhile_append_all _ hq, takeWhile_lit_stop _ (by decide) (by decide),
      List.append_nil]
  have e3 : (nm ++ ("\",".data ++ (" ".data ++ ("\x7b".data
        ++ (body ++ "\x7d)".data))))).drop nm.length
      = "\",".data ++ (" ".data ++ ("\x7b".data ++ (body ++ "\x7d)".data))) :=
    List.drop_left _ _
  have e4 : nm.isEmpty = false := List.isEmpty_eq_false.mpr h1
  have e5 : expects "\",".data ("\",".data ++ (" ".data ++ ("\x7b".data
        ++ (body ++ "\x7d)".data)))) = some (" ".data ++ ("\x7b".data ++ (body ++ "\x7d)".data))) :=
    expects_append _ _
  have e6 : (" ".data ++ ("\x7b".data ++ (body ++ "\x7d)".data))).dropWhile isPySpace
      = "\x7b".data ++ (body ++ "\x7d)".data) := by
    rw [dropWhile_append_all _ (by decide), dropWhile_lit_keep _ (by decide) (by decide)]
  have e7 : expects "\x7b".data ("\x7b".data ++ (body ++ "\x7d)".data))
      = some (body ++ "\x7d)".data) := expects_append _ _
  have e8 : (body ++ "\x7d)".data).takeWhile (fun c => c != '\x7d') = body := by
    rw [takeWhile_append_all _ hb,
      show ("\x7d)".data).takeWhile (fun c => c != '\x7d') = [] from by decide,
      List.append_nil]
  have e9 : (body ++ "\x7d)".data).drop body.length = "\x7d)".data := List.drop_left _ _
  have e10 : expects "\x7d)".data ("\x7d)".data) = some [] := by decide
  simp only [tsObjMatcher, e1, e2, e3, e4, e5, e6, e7, e8, e9, e10, tsIntModeCall,
    Bool.false_eq_true, if_false]

theorem enumDeclMatcher_eval (nm args : List Char) (h1 : nm ≠ [])
    (h2 : ∀ c ∈ nm, isWordChar c = true) (h3 : args ≠ []) (h4 : ')' ∉ args) :
    enumDeclMatcher (enumDeclStmt nm args) = some ([], []) := by
  have hb : ∀ c ∈ args, ((fun c => c != ')') c = true) := by
    intro c hc
    simp only [bne_iff_ne, ne_eq]
    intro hcc
    exact h4 (hcc ▸ hc)
  have hin : enumDeclStmt nm args
      = "export const ".data ++ (nm ++ ("Enum".data
          ++ (" = pgEnum(".data ++ (args ++ ");".data)))) := by
    simp [enumDeclStmt]
  have e1 : expects "export const ".data (enumDeclStmt nm args)
      = some (nm ++ ("Enum".data ++ (" = pgEnum(".data ++ (args ++ ");".data)))) := by
    rw [hin]; exact expects_append _ _
  have e2 : (nm ++ ("Enum".data
        ++ (" = pgEnum(".data ++ (args ++ ");".data)))).takeWhile isWordChar
      = nm ++ "Enum".data := by
    rw [takeWhile_append_all _ h2, takeWhile_append_all _ (by decide),
      takeWhile_lit_stop _ (by decide) (by decide), List.append_nil]
  have hg1 : decide (5 ≤ (nm ++ "Enum".data).length) = true := by
    apply decide_eq_true
    have hpos := List.length_pos.mpr h1
    have h4len : ("Enum".data).length = 4 := rfl
    rw [List.length_append, h4len]
    omega
  have hg2 : ("Enum".data).isSuffixOf (nm ++ "Enum".data) = true :=
    isSuffixOf_iff_ex.mpr ⟨nm, rfl⟩
  have e3 : (nm ++ ("Enum".data
        ++ (" = pgEnum(".data ++ (args ++ ");".data)))).drop (nm ++ "Enum".data).length
      = " = pgEnum(".data ++ (args ++ ");".data) := by
    rw [show nm ++ ("Enum".data ++ (" = pgEnum(".data ++ (args ++ ");".data)))
        = (nm ++ "Enum".data) ++ (" = pgEnum(".data ++ (args ++ ");".data)) from by
      rw [List.append_assoc]]
    exact List.drop_left _ _
  have e4 : expects " = pgEnum(".data (" = pgEnum(".data ++ (args ++ ");".data))
      = some (args ++ ");".data) := expects_append _ _
  have e5 : (args ++ ");".data).takeWhile (fun c => c != ')') = args := by
    rw [takeWhile_append_all _ hb,
      show (");".data).takeWhile (fun c => c != ')') = [] from by decide,
      List.append_nil]
  have e6 : args.isEmpty = false := List.isEmpty_eq_false.mpr h3
  have e7 : (args ++ ");".data).drop args.length = ");".data := List.drop_left _ _
  have e8 : expects ");".data (");".data) = some [] := by decide
  simp only [enumDeclMatcher, e1, e2, hg1, hg2, e3, e4, e5, e6, e7, e8,
    Bool.and_self, if_true, Bool.false_eq_true, if_false]

theorem tsIntModeCall_no_ts (nm : List Char) (h : '(' ∉ nm) :
    occursIn "timestamp(".data (tsIntModeCall nm) = false := by
  have hassoc : tsIntModeCall nm
      = "integer(\"".data ++ (nm ++ "\", \x7b mode: \"timestamp\" \x7d)".data) := by
    simp [tsIntModeCall, List.append_assoc]
  rw [hassoc]
  apply occursIn_append_eq_false_left (by decide) ?hb ?hspan
  case hb =>
    apply occursIn_eq_false_of_not_mem (x := '(') (by decide)
    intro hmem
    rcases List.mem_append.mp hmem with hx | hx
    · exact h hx
    · exact absurd hx (by decide)
  case hspan => decide

theorem foldl_replaceAll_eq_self {α : Type} (patf replf : α → List Char) :
    ∀ (l : List α) (s : List Char), (∀ a ∈ l, occursIn (patf a) s = false) →
      l.foldl (fun acc a => replaceAll (patf a) (replf a) acc) s = s
  | [], _, _ => rfl
  | a :: l, s, h => by
    simp only [List.foldl_cons]
    rw [replaceAll_eq_self (h a (by simp))]
    exact foldl_replaceAll_eq_self patf replf l s (fun b hb => h b (by simp [hb]))

/-! ### The claims -/

set_option maxRecDepth 10000 in
/-- C1 counterexample: an occurrence of the form `timestamp("<name>", { ... })`
whose object literal contains a nested brace, namely
`timestamp("created_at", { legacy: {} })`, is not rewritten by the pipeline to
`integer("created_at", { mode: "timestamp" })`: the two-argument rule's object
pattern matches no closing brace inside the braces, so only the general
single-token rule fires and the object literal is kept verbatim. -/
theorem C1_counterexample :
    (convertPgToSqlite "timestamp(\"created_at\", \x7b legacy: \x7b\x7d \x7d)".data
      == nanoidHeader ++ "integer(\"created_at\", \x7b mode: \"timestamp\" \x7d)".data)
      = false ∧
    convertPgToSqlite "timestamp(\"created_at\", \x7b legacy: \x7b\x7d \x7d)".data
      = nanoidHeader ++ "integer(\"created_at\", \x7b legacy: \x7b\x7d \x7d)".data :=
  ⟨by decide, by decide⟩

/-- C1 (amended): a call `timestamp("<name>", {<body>})` whose name is
non-empty and contains no double quote and no opening parenthesis, and whose
object-literal body contains no closing brace, is rewritten by the two
timestamp rules (the specific two-argument rule of line 29 followed by the
general replacement of line 30) to `integer("<name>", { mode: "timestamp" })`:
the specific rule fires first and its output is left untouched by the general
rule. -/
theorem C1_timestamp_object_rule (nm body : List Char) (h1 : nm ≠ []) (h2 : '"' ∉ nm)
    (h3 : '(' ∉ nm) (h4 : '\x7d' ∉ body) :
    replaceTimestampCall (replaceTimestampObj (tsObjCall nm body)) = tsIntModeCall nm := by
  have hm := tsObjMatcher_eval nm body h1 h2 h4
  have hne : tsObjCall nm body ≠ [] := by
    intro hh
    simp [tsObjCall] at hh
  have hstage : replaceTimestampObj (tsObjCall nm body) = tsIntModeCall nm := by
    unfold replaceTimestampObj
    exact scanSub_full tsObjMatcher hm hne
  rw [hstage]
  unfold replaceTimestampCall
  exact replaceAll_eq_self (tsIntModeCall_no_ts nm h3)

/-- C1 witness: the spec's own example, `timestamp("created_at",
{ withTimezone: true })`, becomes `integer("created_at", { mode: "timestamp" })`. -/
theorem C1_witness :
    replaceTimestampCall (replaceTimestampObj
      (tsObjCall "created_at".data " withTimezone: true ".data))
      = tsIntModeCall "created_at".data :=
  C1_timestamp_object_rule "created_at".data " withTimezone: true ".data
    (by decide) (by decide) (by decide) (by decide)

/-- C2 counterexample: the enum pair list does not have twelve entries. -/
theorem C2_counterexample : (enum_types.length == 12) = false := by decide

set_option maxRecDepth 10000 in
/-- C2 (amended): the enum-to-text rewriting step iterates over a fixed list
of exactly eleven (enum-type-name, column-name) pairs, and for each pair
replaces every call of that exact enum constructor on that exact column-name
string with a text-column constructor call on the same column name (shown on
an input holding two such calls). -/
theorem C2_enum_pairs_list :
    enum_types.length = 11 ∧
      ∀ p ∈ enum_types,
        replaceEnumColumns (enumCallPat p.1 p.2 ++ " ".data ++ enumCallPat p.1 p.2)
          = textCallOf p.2 ++ " ".data ++ textCallOf p.2 :=
  ⟨rfl, by decide⟩

/-- C2 witness: both occurrences of `statusEnum("status")` become
`text("status")`. -/
theorem C2_witness :
    replaceEnumColumns (enumCallPat "statusEnum".data "status".data ++ " ".data
        ++ enumCallPat "statusEnum".data "status".data)
      = textCallOf "status".data ++ " ".data ++ textCallOf "status".data :=
  C2_enum_pairs_list.2 ("statusEnum".data, "status".data) (by decide)

set_option maxRecDepth 10000 in
/-- C3 counterexample: over the whole pipeline the claim fails: on the input
`pgT.array()able` (which contains no occurrence of `pgTable`), the later
`.array()` removal splices the fragments into a fresh `pgTable`, so an
occurrence of `pgTable` does remain in the pipeline's output. -/
theorem C3_counterexample :
    occursIn "pgTable".data (convertPgToSqlite "pgT.array()able".data) = true := by decide

set_option maxRecDepth 10000 in
/-- C3 (amended): the table-constructor replacement step itself is purely
textual: for every input text it replaces every occurrence of the literal
substring `pgTable` (in any context, including inside unrelated text) with
`sqliteTable`, and no occurrence of `pgTable` remains in that step's output;
but a later step of the pipeline can splice a new `pgTable` into the final
output. -/
theorem C3_pgTable_textual :
    (∀ s, occursIn "pgTable".data (replacePgTable s) = false) ∧
      replacePgTable "pgTable(\"deals\", \x7b a \x7d); // pgTable in a comment".data
        = "sqliteTable(\"deals\", \x7b a \x7d); // sqliteTable in a comment".data :=
  ⟨fun s => replaceAll_no_occur _ _ (by decide) (by decide) (by decide) (by decide)
    (by decide) s, by decide⟩

set_option maxRecDepth 10000 in
/-- C4: enum-column rewriting matches exactly on both the enum identifier and
the literal column-name string: `statusEnum("status")` becomes
`text("status")`, while `statusEnum("other_column")` is left
character-for-character unmodified by this step; more generally any input
containing no occurrence of a listed (enum, column) call pattern passes
through the step unchanged. -/
theorem C4_enum_exact_match :
    replaceEnumColumns "statusEnum(\"status\")".data = "text(\"status\")".data ∧
      replaceEnumColumns "statusEnum(\"other_column\")".data
        = "statusEnum(\"other_column\")".data ∧
      ∀ s, (∀ p ∈ enum_types, occursIn (enumCallPat p.1 p.2) s = false) →
        replaceEnumColumns s = s := by
  refine ⟨by decide, by decide, ?_⟩
  intro s hs
  unfold replaceEnumColumns
  exact foldl_replaceAll_eq_self _ _ enum_types s hs

set_option maxRecDepth 10000 in
/-- C4 witness: `statusEnum("other_column")` contains no listed pattern and is
passed through the enum step unmodified. -/
theorem C4_witness :
    replaceEnumColumns "statusEnum(\"other_column\")".data
      = "statusEnum(\"other_column\")".data :=
  C4_enum_exact_match.2.2 "statusEnum(\"other_column\")".data (by decide)

set_option maxRecDepth 10000 in
/-- C5: the boolean-column list has exactly five entries; for each listed
column, a call `integer("<col>")` with no options object is rewritten by the
final step to `integer("<col>", { mode: "boolean" })`, while a call that
already carries an options object, such as
`integer("is_active", { mode: "something_else" })`, is left unmodified by
this step. -/
theorem C5_boolean_mode_columns :
    boolean_columns.length = 5 ∧
      (∀ c ∈ boolean_columns, addBooleanMode (intCallOf c) = intModeCallOf c) ∧
      addBooleanMode "integer(\"is_active\", \x7b mode: \"something_else\" \x7d)".data
        = "integer(\"is_active\", \x7b mode: \"something_else\" \x7d)".data :=
  ⟨rfl, by decide, by decide⟩

set_option maxRecDepth 10000 in
/-- C5 witness: `integer("is_active")` gains the boolean mode annotation. -/
theorem C5_witness : addBooleanMode (intCallOf "is_active".data)
    = intModeCallOf "is_active".data :=
  C5_boolean_mode_columns.2.1 "is_active".data (by decide)

set_option maxRecDepth 10000 in
/-- C6 counterexample: `export const status = pgEnum("s", ["a"]);` is an
exported constant assigned a `pgEnum(...)` call whose argument list contains
no closing parenthesis, yet it is not removed: the removal pattern requires
the constant's name to end in `Enum`, so the pipeline passes the statement
through unchanged (only the header is prepended). -/
theorem C6_counterexample :
    (convertPgToSqlite "export const status = pgEnum(\"s\", [\"a\"]);".data
      == nanoidHeader) = false ∧
    convertPgToSqlite "export const status = pgEnum(\"s\", [\"a\"]);".data
      = nanoidHeader ++ "export const status = pgEnum(\"s\", [\"a\"]);".data :=
  ⟨by decide, by decide⟩

/-- C6 (amended): every enum-type declaration statement of the form
`export const <name>Enum = pgEnum(<args>);` — an exported constant whose name
ends in `Enum` preceded by at least one word character, assigned a
`pgEnum(...)` call whose argument list is non-empty and contains no closing
parenthesis — is removed entirely by the enum-declaration removal step. -/
theorem C6_enum_decl_removal (nm args : List Char) (h1 : nm ≠ [])
    (h2 : ∀ c ∈ nm, isWordChar c = true) (h3 : args ≠ []) (h4 : ')' ∉ args) :
    removeEnumDecls (enumDeclStmt nm args) = [] := by
  have hm := enumDeclMatcher_eval nm args h1 h2 h3 h4
  have hne : enumDeclStmt nm args ≠ [] := by
    intro hh
    simp [enumDeclStmt] at hh
  unfold removeEnumDecls
  exact scanSub_full enumDeclMatcher hm hne

/-- C6 witness: the spec's example
`export const statusEnum = pgEnum("status", ["a", "b"]);` is removed entirely. -/
theorem C6_witness :
    removeEnumDecls (enumDeclStmt "status".data "\"status\", [\"a\", \"b\"]".data) = [] :=
  C6_enum_decl_removal "status".data "\"status\", [\"a\", \"b\"]".data
    (by decide) (by decide) (by decide) (by decide)

/-- C7: the pipeline is not idempotent; in fact for every input `t`,
re-running the pipeline on its own output changes it again (the header is
prepended once more), so `f (f t)` differs from `f t` for all `t`. -/
theorem C7_not_idempotent (t : List Char) :
    (convertPgToSqlite (convertPgToSqlite t) == convertPgToSqlite t) = false := by
  rw [beq_eq_false_iff_ne]
  intro heq
  have h1 : convertPgToSqlite t = nanoidHeader ++ bodyTransform t := convert_split t
  have h2 : convertPgToSqlite (convertPgToSqlite t)
      = nanoidHeader ++ bodyTransform (convertPgToSqlite t) := convert_split _
  rw [heq, h1] at h2
  rw [bodyTransform_header] at h2
  have key : bodyTransform t = nanoidHeader ++ bodyTransform (bodyTransform t) :=
    List.append_cancel_left h2
  have iter : ∀ n, bodyTransform^[n] (bodyTransform t)
      = nanoidHeader ++ bodyTransform^[n + 1] (bodyTransform t) := by
    intro n
    induction n with
    | zero => simpa using key
    | succ n ih =>
      rw [Function.iterate_succ_apply']
      rw [ih, bodyTransform_header]
      conv_rhs => rw [Function.iterate_succ_apply' bodyTransform (n + 1) (bodyTransform t)]
  have len : ∀ n, (bodyTransform t).length
      = n * nanoidHeader.length + (bodyTransform^[n] (bodyTransform t)).length := by
    intro n
    induction n with
    | zero => simp
    | succ n ih =>
      have hstep := congrArg List.length (iter n)
      rw [List.length_append] at hstep
      rw [Nat.succ_mul]
      omega
  have hH : nanoidHeader.length = 64 := by decide
  have hcontra := len ((bodyTransform t).length + 1)
  rw [hH] at hcontra
  omega

set_option maxRecDepth 10000 in
/-- C8 counterexample: the output does not consist of the two prepended lines
followed immediately by the transformed original content: on input `X` the
prepended text additionally holds a blank line between the two lines and the
content. -/
theorem C8_counterexample :
    (convertPgToSqlite "X".data
      == nanoidHeaderTwoLines ++ bodyTransform "X".data) = false := by decide

/-- C8 (amended): for every input, the pipeline prepends exactly two lines of
text — the nanoid import and the `genId` wrapper definition — plus a trailing
blank line, so the output always begins with the two-line header, then an
empty line, then the transformed original content. -/
theorem C8_header_prepend :
    (∀ t, convertPgToSqlite t = nanoidHeader ++ bodyTransform t) ∧
      nanoidHeader = nanoidHeaderTwoLines ++ "\n".data :=
  ⟨convert_split, by decide⟩

/-- C9: if reading the source file fails, the script aborts before any
transformation or write: the run ends in the error state with the filesystem
unchanged, so the destination file is never modified on this path. -/
theorem C9_read_failure_aborts (fs : FileSystem) (h : fs.src = none) :
    runScript fs = Except.error fs := by
  unfold runScript
  rw [h]

/-- C9 witness: with a missing source and an existing destination, the run
errors out and the destination keeps its old contents. -/
theorem C9_witness :
    runScript ⟨none, some "old".data⟩ = Except.error ⟨none, some "old".data⟩ :=
  C9_read_failure_aborts ⟨none, some "old".data⟩ rfl

set_option maxRecDepth 10000 in
/-- C10: for each column in the boolean-column list, `boolean("<col>")` is
first rewritten to `integer("<col>")` by the boolean-to-integer rule, then to
`integer("<col>", { mode: "boolean" })` by the final step, and the end-to-end
pipeline maps `boolean("<col>")` to the header followed by
`integer("<col>", { mode: "boolean" })`. -/
theorem C10_boolean_pipeline :
    ∀ c ∈ boolean_columns,
      replaceBooleanCall (boolCallOf c) = intCallOf c ∧
      addBooleanMode (intCallOf c) = intModeCallOf c ∧
      convertPgToSqlite (boolCallOf c) = nanoidHeader ++ intModeCallOf c := by decide

set_option maxRecDepth 10000 in
/-- C10 witness: `boolean("is_active")` ends up as
`integer("is_active", { mode: "boolean" })` after the whole pipeline. -/
theorem C10_witness :
    replaceBooleanCall (boolCallOf "is_active".data) = intCallOf "is_active".data ∧
    addBooleanMode (intCallOf "is_active".data) = intModeCallOf "is_active".data ∧
    convertPgToSqlite (boolCallOf "is_active".data)
      = nanoidHeader ++ intModeCallOf "is_active".data :=
  C10_boolean_pipeline "is_active".data (by decide)
